import Mathlib

/-!
Shallow embedding of the `tp_cleanup` GCP resource-cleanup script
(`main.go`).  Each cleaner is modelled as a function from its inputs (the
resources the provider's list call returns, a run configuration, and an
environment saying which provider calls succeed) to the trace of observable
events it emits: provider delete/release calls, operation waits, and log
lines.  Concurrent sections (the per-instance and per-service-account
deletion fan-outs, and the disk/address/service-account fan-out inside
`cleanupProject`) are modelled as the set of schedules of a round-robin
merge of the per-unit traces.
-/

/-- Resource kinds handled by the script. -/
inductive Kind where
  | inst
  | disk
  | addr
  | gaddr
  | sa
  | bucket
  | obj
deriving DecidableEq, Repr

/-- Observable events of one run: provider calls and log lines. -/
inductive Event where
  | deleteCall (k : Kind) (name : String)
  | waitOp (k : Kind) (name : String)
  | logFound (k : Kind) (name : String)
  | logSkip (k : Kind) (name : String)
  | logNoneFound (k : Kind)
  | wouldDelete (k : Kind) (n : Nat)
  | logDeleted (k : Kind) (name : String)
  | logDeleteError (k : Kind) (name : String)
  | logWaitError (k : Kind) (name : String)
  | bucketWarning (project : String)
  | projectHeader (project : String)
  | startBanner
  | doneBanner
deriving DecidableEq, Repr

/-- Resource kind an event is about, if any. -/
def Event.kindOf : Event → Option Kind
  | .deleteCall k _ => some k
  | .waitOp k _ => some k
  | .logFound k _ => some k
  | .logSkip k _ => some k
  | .logNoneFound k => some k
  | .wouldDelete k _ => some k
  | .logDeleted k _ => some k
  | .logDeleteError k _ => some k
  | .logWaitError k _ => some k
  | .bucketWarning _ => none
  | .projectHeader _ => none
  | .startBanner => none
  | .doneBanner => none

/-- An event is a mutating provider call (delete/release). -/
def Event.isMutating : Event → Bool
  | .deleteCall _ _ => true
  | _ => false

/-- An event is a bucket- or object-deletion provider call. -/
def Event.isBucketMutation : Event → Bool
  | .deleteCall .bucket _ => true
  | .deleteCall .obj _ => true
  | _ => false

/-- An event is a delete call of the given kind. -/
def Event.isDeleteOf (k : Kind) : Event → Bool
  | .deleteCall k' _ => k' == k
  | _ => false

/-- An event is a delete call or an operation wait of the given kind. -/
def Event.isDeleteOrWaitOf (k : Kind) : Event → Bool
  | .deleteCall k' _ => k' == k
  | .waitOp k' _ => k' == k
  | _ => false

/-- An event is an operation-wait call. -/
def Event.isWaitOp : Event → Bool
  | .waitOp _ _ => true
  | _ => false

/-- An event is a delete call for a disk, address, global address or
service account (the resource types cleaned after the VM pass). -/
def Event.isNonVMDelete : Event → Bool
  | .deleteCall .disk _ => true
  | .deleteCall .addr _ => true
  | .deleteCall .gaddr _ => true
  | .deleteCall .sa _ => true
  | _ => false

/-- An event is a per-project section header of the driver. -/
def Event.isHeader : Event → Bool
  | .projectHeader _ => true
  | _ => false

/-- Resource name an event carries, if any. -/
def Event.nameOf : Event → Option String
  | .deleteCall _ n => some n
  | .waitOp _ n => some n
  | .logFound _ n => some n
  | .logSkip _ n => some n
  | .logDeleted _ n => some n
  | .logDeleteError _ n => some n
  | .logWaitError _ n => some n
  | _ => none

/-- Compute instance as returned by the aggregated list call. -/
structure Instance where
  name : String
  zone : String
  status : String
deriving DecidableEq, Repr

/-- Disk as returned by the aggregated list call; `users` are the
attachment references (`disk.GetUsers()`). -/
structure Disk where
  name : String
  zone : String
  sizeGb : Int
  users : List String
deriving DecidableEq, Repr

/-- Regional static address. -/
structure Address where
  name : String
  region : String
  address : String
  status : String
deriving DecidableEq, Repr

/-- Global static address. -/
structure GlobalAddress where
  name : String
  address : String
  status : String
deriving DecidableEq, Repr

/-- IAM service account: `email`, display name, and the resource `name`
used in the delete call. -/
structure ServiceAccount where
  email : String
  displayName : String
  saName : String
deriving DecidableEq, Repr

/-- Storage bucket together with the objects its object listing returns. -/
structure BucketObject where
  name : String
deriving DecidableEq, Repr

/-- Storage bucket attributes and contents. -/
structure Bucket where
  name : String
  location : String
  storageClass : String
  objects : List BucketObject
deriving DecidableEq, Repr

/-- Run configuration: the configured project IDs and the dry-run flag
(the two package-level variables of `main.go`). -/
structure Config where
  projectIDs : List String
  dryRun : Bool
deriving Repr

/-- Provider environment: which delete calls succeed and which operation
waits succeed, per resource kind, keyed by resource name. -/
structure Env where
  instDeleteOk : String → Bool
  instWaitOk : String → Bool
  diskDeleteOk : String → Bool
  diskWaitOk : String → Bool
  addrDeleteOk : String → Bool
  addrWaitOk : String → Bool
  gaddrDeleteOk : String → Bool
  gaddrWaitOk : String → Bool
  saDeleteOk : String → Bool
  objDeleteOk : String → Bool
  bucketDeleteOk : String → Bool

/-- Resources the provider reports for one project. -/
structure ProjectResources where
  instances : List Instance
  disks : List Disk
  addresses : List Address
  globalAddresses : List GlobalAddress
  serviceAccounts : List ServiceAccount

/-- The project IDs configured in the source (`projectIDs` in `main.go`). -/
def sourceProjectIDs : List String :=
  ["z257c6412e15fa257-tp", "mfc4dc04826a8d270-tp", "u6c7e2e4892fda638-tp"]

/-- The configuration compiled into the source: the three project IDs and
`dryRun = false`. -/
def sourceConfig : Config :=
  { projectIDs := sourceProjectIDs, dryRun := false }

/-- Embedding of Go's `strings.Split` for a one-character separator,
on character lists: `strings.Split("", sep) = [""]`, and in general the
result has one element per separator-delimited segment and is never
empty. -/
def splitOnChar (sep : Char) : List Char → List (List Char)
  | [] => [[]]
  | c :: rest =>
    let r := splitOnChar sep rest
    if c = sep then
      [] :: r
    else
      match r with
      | [] => [[c]]
      | h :: t => (c :: h) :: t

/-- Embedding of `extractZoneFromURL`: trailing path segment of a zone
URL, empty string for the empty URL. -/
def extractZoneFromURL (zoneURL : String) : String :=
  if zoneURL = "" then ""
  else
    let parts := zoneURL.splitOn "/"
    match parts.getLast? with
    | some p => p
    | none => zoneURL

/-- Embedding of `extractRegionFromURL`: trailing path segment of a region
URL, empty string for the empty URL. -/
def extractRegionFromURL (regionURL : String) : String :=
  if regionURL = "" then ""
  else
    let parts := regionURL.splitOn "/"
    match parts.getLast? with
    | some p => p
    | none => regionURL

/-- The literal tag the service-account filter matches against
(`"vsa-sa-gcnv"` in `deleteServiceAccounts`). -/
def saTag : List Char := "vsa-sa-gcnv".toList

/-- Embedding of the candidate test in `deleteServiceAccounts`:
`emailParts := strings.Split(sa.Email, "@")` followed by
`len(emailParts) > 0 && strings.HasPrefix(emailParts[0], "vsa-sa-gcnv")`. -/
def saEmailMatches (email : String) : Bool :=
  match splitOnChar '@' email.toList with
  | [] => false
  | p :: _ => List.isPrefixOf saTag p

/-- A service account is a deletion candidate. -/
def saIsCandidate (sa : ServiceAccount) : Bool :=
  saEmailMatches sa.email

/-- The filtered `targetAccounts` list of `deleteServiceAccounts`. -/
def targetAccounts (sas : List ServiceAccount) : List ServiceAccount :=
  sas.filter saIsCandidate

/-- Spec-side reading of "the local part of the email (the substring
before the `@`)": the longest prefix of the email not containing `@`. -/
def localPartSpec (email : String) : List Char :=
  email.toList.takeWhile (fun c => c ≠ '@')

/-- Round-robin scheduler for a concurrent fan-out: `sched` names, step
by step, which unit of concurrency emits its next event; the result is
`some` merged trace when the schedule consumes every queue exactly. -/
def runSched {α : Type} : List Nat → List (List α) → Option (List α)
  | [], qs => if qs.all List.isEmpty then some [] else none
  | i :: rest, qs =>
    match qs.get? i with
    | some (x :: xs) =>
      match runSched rest (qs.set i xs) with
      | some t => some (x :: t)
      | none => none
    | _ => none

/-- Trace of one instance deletion goroutine in `deleteVMInstances`:
issue the delete call; on submission failure log and return, otherwise
wait for the operation and log the outcome. -/
def instanceItemTrace (env : Env) (i : Instance) : List Event :=
  Event.deleteCall .inst i.name ::
    (if env.instDeleteOk i.name then
      Event.waitOp .inst i.name ::
        (if env.instWaitOk i.name then [Event.logDeleted .inst i.name]
         else [Event.logWaitError .inst i.name])
     else [Event.logDeleteError .inst i.name])

/-- Possible traces of `deleteVMInstances` for one project: log every
discovered instance; if none, report and return; in dry-run report the
count and return; otherwise fan out one deletion goroutine per instance
and join, so the deletion part is any schedule of the per-item traces. -/
def PossibleVMTrace (cfg : Config) (env : Env) (instances : List Instance)
    (t : List Event) : Prop :=
  if instances.length = 0 then
    t = instances.map (fun i => Event.logFound .inst i.name) ++ [Event.logNoneFound .inst]
  else if cfg.dryRun then
    t = instances.map (fun i => Event.logFound .inst i.name) ++
      [Event.wouldDelete .inst instances.length]
  else
    ∃ sched tDel,
      runSched sched (instances.map (instanceItemTrace env)) = some tDel ∧
      t = instances.map (fun i => Event.logFound .inst i.name) ++ tDel

/-- Candidate disks of `deleteDisks`: those with zero attachment
references (`len(disk.GetUsers()) > 0` is the skip test). -/
def diskCandidates (disks : List Disk) : List Disk :=
  disks.filter (fun d => d.users.length == 0)

/-- Trace of one iteration of the disk loop in `deleteDisks`: an attached
disk is skipped; an unattached one is logged as found and, when not in
dry-run, deleted with a wait for the operation. -/
def diskItemTrace (cfg : Config) (env : Env) (d : Disk) : List Event :=
  if d.users.length > 0 then
    [Event.logSkip .disk d.name]
  else
    Event.logFound .disk d.name ::
      (if !cfg.dryRun then
        Event.deleteCall .disk d.name ::
          (if env.diskDeleteOk d.name then
            Event.waitOp .disk d.name ::
              (if env.diskWaitOk d.name then [Event.logDeleted .disk d.name]
               else [Event.logWaitError .disk d.name])
           else [Event.logDeleteError .disk d.name])
       else [])

/-- Trace of `deleteDisks` for one project: the (sequential) loop over
all listed disks followed by the summary log driven by the candidate
count. -/
def deleteDisks (cfg : Config) (env : Env) (disks : List Disk) : List Event :=
  (disks.map (diskItemTrace cfg env)).flatten ++
    (if (diskCandidates disks).length = 0 then [Event.logNoneFound .disk]
     else if cfg.dryRun then [Event.wouldDelete .disk (diskCandidates disks).length]
     else [])

/-- Candidate regional addresses: those whose status is not `"IN_USE"`. -/
def addrCandidates (as : List Address) : List Address :=
  as.filter (fun a => a.status ≠ "IN_USE")

/-- Candidate global addresses: those whose status is not `"IN_USE"`. -/
def gaddrCandidates (gs : List GlobalAddress) : List GlobalAddress :=
  gs.filter (fun g => g.status ≠ "IN_USE")

/-- Trace of one iteration of the regional-address loop in
`releaseStaticIPs`. -/
def addressItemTrace (cfg : Config) (env : Env) (a : Address) : List Event :=
  if a.status = "IN_USE" then
    [Event.logSkip .addr a.name]
  else
    Event.logFound .addr a.name ::
      (if !cfg.dryRun then
        Event.deleteCall .addr a.name ::
          (if env.addrDeleteOk a.name then
            Event.waitOp .addr a.name ::
              (if env.addrWaitOk a.name then [Event.logDeleted .addr a.name]
               else [Event.logWaitError .addr a.name])
           else [Event.logDeleteError .addr a.name])
       else [])

/-- Trace of one iteration of the global-address loop in
`releaseStaticIPs`. -/
def globalAddressItemTrace (cfg : Config) (env : Env) (g : GlobalAddress) :
    List Event :=
  if g.status = "IN_USE" then
    [Event.logSkip .gaddr g.name]
  else
    Event.logFound .gaddr g.name ::
      (if !cfg.dryRun then
        Event.deleteCall .gaddr g.name ::
          (if env.gaddrDeleteOk g.name then
            Event.waitOp .gaddr g.name ::
              (if env.gaddrWaitOk g.name then [Event.logDeleted .gaddr g.name]
               else [Event.logWaitError .gaddr g.name])
           else [Event.logDeleteError .gaddr g.name])
       else [])

/-- Trace of `releaseStaticIPs` for one project: the regional loop, then
the global loop, then the summary log driven by the single combined
candidate count `ipCount`. -/
def releaseStaticIPs (cfg : Config) (env : Env) (as : List Address)
    (gs : List GlobalAddress) : List Event :=
  (as.map (addressItemTrace cfg env)).flatten ++
    (gs.map (globalAddressItemTrace cfg env)).flatten ++
    (if (addrCandidates as).length + (gaddrCandidates gs).length = 0 then
      [Event.logNoneFound .addr]
     else if cfg.dryRun then
      [Event.wouldDelete .addr ((addrCandidates as).length + (gaddrCandidates gs).length)]
     else [])

/-- Trace of one service-account deletion goroutine in
`deleteServiceAccounts`: a single synchronous delete call whose outcome is
logged; there is no separate operation wait. -/
def saItemTrace (env : Env) (sa : ServiceAccount) : List Event :=
  Event.deleteCall .sa sa.saName ::
    (if env.saDeleteOk sa.saName then [Event.logDeleted .sa sa.email]
     else [Event.logDeleteError .sa sa.email])

/-- Possible traces of `deleteServiceAccounts` for one project: log every
matching account while filtering; if none match, report and return; in
dry-run report the count; otherwise fan out one deletion goroutine per
target account and join. -/
def PossibleSATrace (cfg : Config) (env : Env) (sas : List ServiceAccount)
    (t : List Event) : Prop :=
  if (targetAccounts sas).length = 0 then
    t = (targetAccounts sas).map (fun sa => Event.logFound .sa sa.email) ++
      [Event.logNoneFound .sa]
  else if cfg.dryRun then
    t = (targetAccounts sas).map (fun sa => Event.logFound .sa sa.email) ++
      [Event.wouldDelete .sa (targetAccounts sas).length]
  else
    ∃ sched tDel,
      runSched sched ((targetAccounts sas).map (saItemTrace env)) = some tDel ∧
      t = (targetAccounts sas).map (fun sa => Event.logFound .sa sa.email) ++ tDel

/-- Trace of one iteration of the bucket loop in `deleteBuckets`: log the
bucket; when not in dry-run, delete every object, then delete the bucket.
The orchestrator never calls this function. -/
def bucketItemTrace (cfg : Config) (env : Env) (b : Bucket) : List Event :=
  Event.logFound .bucket b.name ::
    (if !cfg.dryRun then
      (b.objects.map (fun o =>
        if env.objDeleteOk o.name then [Event.deleteCall .obj o.name]
        else [Event.deleteCall .obj o.name, Event.logDeleteError .obj o.name])).flatten ++
        (Event.deleteCall .bucket b.name ::
          (if env.bucketDeleteOk b.name then [Event.logDeleted .bucket b.name]
           else [Event.logDeleteError .bucket b.name]))
     else [])

/-- Trace of `deleteBuckets`: present in the source but unreachable from
`cleanupProject`. -/
def deleteBuckets (cfg : Config) (env : Env) (buckets : List Bucket) : List Event :=
  (buckets.map (bucketItemTrace cfg env)).flatten ++
    (if buckets.length = 0 then [Event.logNoneFound .bucket]
     else if cfg.dryRun then [Event.wouldDelete .bucket buckets.length]
     else [])

/-- Possible traces of `cleanupProject`: the VM cleaner runs first and
returns; then disks, addresses and service accounts run concurrently (any
schedule of their three traces); finally the manual-bucket warning is
printed.  Buckets are never cleaned. -/
def PossibleCleanupTrace (cfg : Config) (env : Env) (project : String)
    (res : ProjectResources) (t : List Event) : Prop :=
  ∃ tVM tSA tOthers,
    PossibleVMTrace cfg env res.instances tVM ∧
    PossibleSATrace cfg env res.serviceAccounts tSA ∧
    (∃ sched,
      runSched sched
        [deleteDisks cfg env res.disks,
         releaseStaticIPs cfg env res.addresses res.globalAddresses,
         tSA] = some tOthers) ∧
    t = tVM ++ tOthers ++ [Event.bucketWarning project]

/-- Possible traces of `main`: the start banner, then each configured
project processed strictly in order (header, then a possible
`cleanupProject` trace), then the completion banner. -/
def PossibleMainTrace (cfg : Config) (env : Env)
    (res : String → ProjectResources) (t : List Event) : Prop :=
  ∃ ts : List (List Event),
    List.Forall₂ (fun p tp => PossibleCleanupTrace cfg env p (res p) tp)
      cfg.projectIDs ts ∧
    t = Event.startBanner ::
      ((List.zipWith (fun p tp => Event.projectHeader p :: tp) cfg.projectIDs ts).flatten
        ++ [Event.doneBanner])

/-- Environment in which every provider call succeeds. -/
def env0 : Env :=
  { instDeleteOk := fun _ => true, instWaitOk := fun _ => true
    diskDeleteOk := fun _ => true, diskWaitOk := fun _ => true
    addrDeleteOk := fun _ => true, addrWaitOk := fun _ => true
    gaddrDeleteOk := fun _ => true, gaddrWaitOk := fun _ => true
    saDeleteOk := fun _ => true
    objDeleteOk := fun _ => true, bucketDeleteOk := fun _ => true }

/-- Environment in which the delete call for the disk named
`"disk-fail"` fails and everything else succeeds. -/
def envDiskFail : Env :=
  { env0 with diskDeleteOk := fun n => !(n == "disk-fail") }

/-- A one-project dry-run configuration used as a concrete input. -/
def cfgDry : Config := { projectIDs := ["p1"], dryRun := true }

/-- A one-project live configuration used as a concrete input. -/
def cfgLive : Config := { projectIDs := ["p1"], dryRun := false }

/-- A project with no resources at all. -/
def res0 : ProjectResources :=
  { instances := [], disks := [], addresses := [], globalAddresses := []
    serviceAccounts := [] }

/-- Sample running instances. -/
def i1 : Instance := { name := "vm-a", zone := "zones/z1", status := "RUNNING" }

/-- A second sample instance. -/
def i2 : Instance := { name := "vm-b", zone := "zones/z1", status := "RUNNING" }

/-- An unattached disk. -/
def dFree : Disk := { name := "disk-a", zone := "zones/z1", sizeGb := 100, users := [] }

/-- A second unattached disk. -/
def dFree2 : Disk := { name := "disk-b", zone := "zones/z1", sizeGb := 50, users := [] }

/-- A disk with one attachment reference. -/
def dAttached : Disk :=
  { name := "disk-used", zone := "zones/z1", sizeGb := 10, users := ["vm-a"] }

/-- An unattached disk whose delete call fails under `envDiskFail`. -/
def dFail : Disk := { name := "disk-fail", zone := "zones/z1", sizeGb := 1, users := [] }

/-- A reserved (unused) regional address. -/
def aReserved : Address :=
  { name := "addr-a", region := "regions/r1", address := "1.2.3.4", status := "RESERVED" }

/-- A regional address that is in use. -/
def aInUse : Address :=
  { name := "addr-used", region := "regions/r1", address := "1.2.3.5", status := "IN_USE" }

/-- A reserved (unused) global address. -/
def gReserved : GlobalAddress :=
  { name := "gaddr-a", address := "2.3.4.6", status := "RESERVED" }

/-- A global address that is in use. -/
def gInUse : GlobalAddress :=
  { name := "gaddr-used", address := "2.3.4.5", status := "IN_USE" }

/-- A service account created by the automation (matching email tag). -/
def sa1 : ServiceAccount :=
  { email := "vsa-sa-gcnv-123@proj.iam.gserviceaccount.com", displayName := "a"
    saName := "projects/p/serviceAccounts/vsa-sa-gcnv-123@proj.iam.gserviceaccount.com" }

/-- A second automation service account. -/
def sa2 : ServiceAccount :=
  { email := "vsa-sa-gcnv-456@proj.iam.gserviceaccount.com", displayName := "b"
    saName := "projects/p/serviceAccounts/vsa-sa-gcnv-456@proj.iam.gserviceaccount.com" }

/-- A service account not created by the automation. -/
def saOther : ServiceAccount :=
  { email := "other-sa@proj.iam.gserviceaccount.com", displayName := "c"
    saName := "projects/p/serviceAccounts/other-sa@proj.iam.gserviceaccount.com" }

/-- A service account whose email has no `@` and matches the tag. -/
def saNoAt : ServiceAccount :=
  { email := "vsa-sa-gcnv-noat", displayName := "d", saName := "projects/p/serviceAccounts/x" }

/-- The trace `cleanupProject` emits for a project with no resources. -/
def emptyResTrace (project : String) : List Event :=
  [Event.logNoneFound .inst, Event.logNoneFound .disk, Event.logNoneFound .addr,
   Event.logNoneFound .sa, Event.bucketWarning project]

attribute [simp] Event.kindOf Event.isMutating Event.isBucketMutation
attribute [simp] Event.isDeleteOf Event.isDeleteOrWaitOf Event.isWaitOp Event.isNonVMDelete
attribute [simp] Event.nameOf Event.isHeader

/-- Every event of a merged trace comes from one of the merged queues. -/
theorem runSched_mem {α : Type} :
    ∀ (sched : List Nat) (qs : List (List α)) (t : List α),
      runSched sched qs = some t → ∀ e ∈ t, ∃ q ∈ qs, e ∈ q := by
  intro sched
  induction sched with
  | nil =>
    intro qs t h e he
    unfold runSched at h
    split at h
    · cases h; simp at he
    · cases h
  | cons i rest ih =>
    intro qs t h e he
    unfold runSched at h
    split at h
    · rename_i x xs hq
      split at h
      · rename_i t' hr
        cases h
        rcases List.mem_cons.mp he with hx | he'
        · exact ⟨x :: xs, List.get?_mem hq, by rw [hx]; exact List.mem_cons_self _ _⟩
        · obtain ⟨q, hq', hx⟩ := ih (qs.set i xs) t' hr e he'
          rcases List.mem_or_eq_of_mem_set hq' with h' | hqx
          · exact ⟨q, h', hx⟩
          · exact ⟨x :: xs, List.get?_mem hq,
              List.mem_cons_of_mem _ (by rw [← hqx]; exact hx)⟩
      · cases h
    · cases h

/-- Every event of an instance-deletion goroutine trace is about
instances. -/
theorem instanceItemTrace_kind (env : Env) (i : Instance) :
    ∀ e ∈ instanceItemTrace env i, e.kindOf = some Kind.inst := by
  intro e he
  unfold instanceItemTrace at he
  rcases List.mem_cons.mp he with rfl | he'
  · rfl
  · split at he'
    · rcases List.mem_cons.mp he' with rfl | he''
      · rfl
      · split at he'' <;> (simp only [List.mem_singleton] at he''; subst he''; rfl)
    · simp only [List.mem_singleton] at he'; subst he'; rfl

/-- Every event of a disk-loop iteration trace is about disks. -/
theorem diskItemTrace_kind (cfg : Config) (env : Env) (d : Disk) :
    ∀ e ∈ diskItemTrace cfg env d, e.kindOf = some Kind.disk := by
  intro e he
  unfold diskItemTrace at he
  split at he
  · simp only [List.mem_singleton] at he; subst he; rfl
  · rcases List.mem_cons.mp he with h | he'
    · subst h; rfl
    · split at he'
      · rcases List.mem_cons.mp he' with h | he''
        · subst h; rfl
        · split at he''
          · rcases List.mem_cons.mp he'' with h | he'''
            · subst h; rfl
            · split at he''' <;>
                (simp only [List.mem_singleton] at he'''; subst he'''; rfl)
          · simp only [List.mem_singleton] at he''; subst he''; rfl
      · simp at he'

/-- Every event of a regional-address-loop iteration trace is about
regional addresses. -/
theorem addressItemTrace_kind (cfg : Config) (env : Env) (a : Address) :
    ∀ e ∈ addressItemTrace cfg env a, e.kindOf = some Kind.addr := by
  intro e he
  unfold addressItemTrace at he
  split at he
  · simp only [List.mem_singleton] at he; subst he; rfl
  · rcases List.mem_cons.mp he with h | he'
    · subst h; rfl
    · split at he'
      · rcases List.mem_cons.mp he' with h | he''
        · subst h; rfl
        · split at he''
          · rcases List.mem_cons.mp he'' with h | he'''
            · subst h; rfl
            · split at he''' <;>
                (simp only [List.mem_singleton] at he'''; subst he'''; rfl)
          · simp only [List.mem_singleton] at he''; subst he''; rfl
      · simp at he'

/-- Every event of a global-address-loop iteration trace is about global
addresses. -/
theorem globalAddressItemTrace_kind (cfg : Config) (env : Env) (g : GlobalAddress) :
    ∀ e ∈ globalAddressItemTrace cfg env g, e.kindOf = some Kind.gaddr := by
  intro e he
  unfold globalAddressItemTrace at he
  split at he
  · simp only [List.mem_singleton] at he; subst he; rfl
  · rcases List.mem_cons.mp he with h | he'
    · subst h; rfl
    · split at he'
      · rcases List.mem_cons.mp he' with h | he''
        · subst h; rfl
        · split at he''
          · rcases List.mem_cons.mp he'' with h | he'''
            · subst h; rfl
            · split at he''' <;>
                (simp only [List.mem_singleton] at he'''; subst he'''; rfl)
          · simp only [List.mem_singleton] at he''; subst he''; rfl
      · simp at he'

/-- Every event of a service-account goroutine trace is about service
accounts. -/
theorem saItemTrace_kind (env : Env) (sa : ServiceAccount) :
    ∀ e ∈ saItemTrace env sa, e.kindOf = some Kind.sa := by
  intro e he
  unfold saItemTrace at he
  rcases List.mem_cons.mp he with h | he'
  · subst h; rfl
  · split at he' <;> (simp only [List.mem_singleton] at he'; subst he'; rfl)

/-- Every event of a `deleteDisks` trace is about disks. -/
theorem deleteDisks_kind (cfg : Config) (env : Env) (disks : List Disk) :
    ∀ e ∈ deleteDisks cfg env disks, e.kindOf = some Kind.disk := by
  intro e he
  unfold deleteDisks at he
  rcases List.mem_append.mp he with h | h
  · obtain ⟨l, hl, he'⟩ := List.mem_flatten.mp h
    obtain ⟨d, _, rfl⟩ := List.mem_map.mp hl
    exact diskItemTrace_kind cfg env d e he'
  · split at h
    · simp only [List.mem_singleton] at h; subst h; rfl
    · split at h
      · simp only [List.mem_singleton] at h; subst h; rfl
      · simp at h

/-- Every event of a `releaseStaticIPs` trace is about regional or global
addresses. -/
theorem releaseStaticIPs_kind (cfg : Config) (env : Env) (as : List Address)
    (gs : List GlobalAddress) :
    ∀ e ∈ releaseStaticIPs cfg env as gs,
      e.kindOf = some Kind.addr ∨ e.kindOf = some Kind.gaddr := by
  intro e he
  unfold releaseStaticIPs at he
  rcases List.mem_append.mp he with h | h
  · rcases List.mem_append.mp h with h' | h'
    · obtain ⟨l, hl, he'⟩ := List.mem_flatten.mp h'
      obtain ⟨a, _, rfl⟩ := List.mem_map.mp hl
      exact Or.inl (addressItemTrace_kind cfg env a e he')
    · obtain ⟨l, hl, he'⟩ := List.mem_flatten.mp h'
      obtain ⟨g, _, rfl⟩ := List.mem_map.mp hl
      exact Or.inr (globalAddressItemTrace_kind cfg env g e he')
  · split at h
    · simp only [List.mem_singleton] at h; subst h; exact Or.inl rfl
    · split at h
      · simp only [List.mem_singleton] at h; subst h; exact Or.inl rfl
      · simp at h

/-- Every event of a possible `deleteVMInstances` trace is about
instances. -/
theorem possibleVMTrace_kind (cfg : Config) (env : Env)
    (instances : List Instance) (t : List Event)
    (h : PossibleVMTrace cfg env instances t) :
    ∀ e ∈ t, e.kindOf = some Kind.inst := by
  intro e he
  unfold PossibleVMTrace at h
  split at h
  · subst h
    rcases List.mem_append.mp he with hf | hf
    · obtain ⟨i, _, rfl⟩ := List.mem_map.mp hf; rfl
    · simp only [List.mem_singleton] at hf; subst hf; rfl
  · split at h
    · subst h
      rcases List.mem_append.mp he with hf | hf
      · obtain ⟨i, _, rfl⟩ := List.mem_map.mp hf; rfl
      · simp only [List.mem_singleton] at hf; subst hf; rfl
    · obtain ⟨sched, tDel, hrun, rfl⟩ := h
      rcases List.mem_append.mp he with hf | hf
      · obtain ⟨i, _, rfl⟩ := List.mem_map.mp hf; rfl
      · obtain ⟨q, hq, he'⟩ := runSched_mem _ _ _ hrun e hf
        obtain ⟨i, _, rfl⟩ := List.mem_map.mp hq
        exact instanceItemTrace_kind env i e he'

/-- Every event of a possible `deleteServiceAccounts` trace is about
service accounts. -/
theorem possibleSATrace_kind (cfg : Config) (env : Env)
    (sas : List ServiceAccount) (t : List Event)
    (h : PossibleSATrace cfg env sas t) :
    ∀ e ∈ t, e.kindOf = some Kind.sa := by
  intro e he
  unfold PossibleSATrace at h
  split at h
  · subst h
    rcases List.mem_append.mp he with hf | hf
    · obtain ⟨sa, _, rfl⟩ := List.mem_map.mp hf; rfl
    · simp only [List.mem_singleton] at hf; subst hf; rfl
  · split at h
    · subst h
      rcases List.mem_append.mp he with hf | hf
      · obtain ⟨sa, _, rfl⟩ := List.mem_map.mp hf; rfl
      · simp only [List.mem_singleton] at hf; subst hf; rfl
    · obtain ⟨sched, tDel, hrun, rfl⟩ := h
      rcases List.mem_append.mp he with hf | hf
      · obtain ⟨sa, _, rfl⟩ := List.mem_map.mp hf; rfl
      · obtain ⟨q, hq, he'⟩ := runSched_mem _ _ _ hrun e hf
        obtain ⟨sa, _, rfl⟩ := List.mem_map.mp hq
        exact saItemTrace_kind env sa e he'

/-- Every event of the concurrent disk/address/service-account section of
`cleanupProject` is about disks, addresses, global addresses or service
accounts. -/
theorem cleanupOthers_kind (cfg : Config) (env : Env) (res : ProjectResources)
    (tSA tOthers : List Event)
    (hSA : PossibleSATrace cfg env res.serviceAccounts tSA)
    (sched : List Nat)
    (hrun : runSched sched
      [deleteDisks cfg env res.disks,
       releaseStaticIPs cfg env res.addresses res.globalAddresses,
       tSA] = some tOthers) :
    ∀ e ∈ tOthers,
      e.kindOf = some Kind.disk ∨ e.kindOf = some Kind.addr ∨
      e.kindOf = some Kind.gaddr ∨ e.kindOf = some Kind.sa := by
  intro e he
  obtain ⟨q, hq, he'⟩ := runSched_mem _ _ _ hrun e he
  simp only [List.mem_cons, List.not_mem_nil, or_false] at hq
  rcases hq with rfl | rfl | hq3
  · exact Or.inl (deleteDisks_kind cfg env res.disks e he')
  · rcases releaseStaticIPs_kind cfg env res.addresses res.globalAddresses e he' with h | h
    · exact Or.inr (Or.inl h)
    · exact Or.inr (Or.inr (Or.inl h))
  · subst hq3
    exact Or.inr (Or.inr (Or.inr
      (possibleSATrace_kind cfg env res.serviceAccounts _ hSA e he')))

/-- In dry-run mode a possible VM trace has no mutating call. -/
theorem possibleVMTrace_dry (cfg : Config) (env : Env)
    (instances : List Instance) (t : List Event) (hdry : cfg.dryRun = true)
    (h : PossibleVMTrace cfg env instances t) :
    ∀ e ∈ t, e.isMutating = false := by
  intro e he
  unfold PossibleVMTrace at h
  split at h
  · subst h
    rcases List.mem_append.mp he with hf | hf
    · obtain ⟨i, _, rfl⟩ := List.mem_map.mp hf; rfl
    · simp only [List.mem_singleton] at hf; subst hf; rfl
  · subst h
    rcases List.mem_append.mp he with hf | hf
    · obtain ⟨i, _, rfl⟩ := List.mem_map.mp hf; rfl
    · simp only [List.mem_singleton] at hf; subst hf; rfl

/-- In dry-run mode a disk-loop iteration has no mutating call. -/
theorem diskItemTrace_dry (cfg : Config) (env : Env) (d : Disk)
    (hdry : cfg.dryRun = true) :
    ∀ e ∈ diskItemTrace cfg env d, e.isMutating = false := by
  intro e he
  unfold diskItemTrace at he
  split at he
  · simp only [List.mem_singleton] at he; subst he; rfl
  · rcases List.mem_cons.mp he with h | he'
    · subst h; rfl
    · rw [hdry] at he'; simp at he'

/-- In dry-run mode `deleteDisks` issues no mutating call. -/
theorem deleteDisks_dry (cfg : Config) (env : Env) (disks : List Disk)
    (hdry : cfg.dryRun = true) :
    ∀ e ∈ deleteDisks cfg env disks, e.isMutating = false := by
  intro e he
  unfold deleteDisks at he
  rcases List.mem_append.mp he with h | h
  · obtain ⟨l, hl, he'⟩ := List.mem_flatten.mp h
    obtain ⟨d, _, rfl⟩ := List.mem_map.mp hl
    exact diskItemTrace_dry cfg env d hdry e he'
  · split at h
    · simp only [List.mem_singleton] at h; subst h; rfl
    · simp only [List.mem_singleton] at h; subst h; rfl

/-- In dry-run mode a regional-address-loop iteration has no mutating
call. -/
theorem addressItemTrace_dry (cfg : Config) (env : Env) (a : Address)
    (hdry : cfg.dryRun = true) :
    ∀ e ∈ addressItemTrace cfg env a, e.isMutating = false := by
  intro e he
  unfold addressItemTrace at he
  split at he
  · simp only [List.mem_singleton] at he; subst he; rfl
  · rcases List.mem_cons.mp he with h | he'
    · subst h; rfl
    · rw [hdry] at he'; simp at he'

/-- In dry-run mode a global-address-loop iteration has no mutating
call. -/
theorem globalAddressItemTrace_dry (cfg : Config) (env : Env) (g : GlobalAddress)
    (hdry : cfg.dryRun = true) :
    ∀ e ∈ globalAddressItemTrace cfg env g, e.isMutating = false := by
  intro e he
  unfold globalAddressItemTrace at he
  split at he
  · simp only [List.mem_singleton] at he; subst he; rfl
  · rcases List.mem_cons.mp he with h | he'
    · subst h; rfl
    · rw [hdry] at he'; simp at he'

/-- In dry-run mode `releaseStaticIPs` issues no mutating call. -/
theorem releaseStaticIPs_dry (cfg : Config) (env : Env) (as : List Address)
    (gs : List GlobalAddress) (hdry : cfg.dryRun = true) :
    ∀ e ∈ releaseStaticIPs cfg env as gs, e.isMutating = false := by
  intro e he
  unfold releaseStaticIPs at he
  rcases List.mem_append.mp he with h | h
  · rcases List.mem_append.mp h with h' | h'
    · obtain ⟨l, hl, he'⟩ := List.mem_flatten.mp h'
      obtain ⟨a, _, rfl⟩ := List.mem_map.mp hl
      exact addressItemTrace_dry cfg env a hdry e he'
    · obtain ⟨l, hl, he'⟩ := List.mem_flatten.mp h'
      obtain ⟨g, _, rfl⟩ := List.mem_map.mp hl
      exact globalAddressItemTrace_dry cfg env g hdry e he'
  · split at h
    · simp only [List.mem_singleton] at h; subst h; rfl
    · simp only [List.mem_singleton] at h; subst h; rfl

/-- In dry-run mode a possible service-account trace has no mutating
call. -/
theorem possibleSATrace_dry (cfg : Config) (env : Env)
    (sas : List ServiceAccount) (t : List Event) (hdry : cfg.dryRun = true)
    (h : PossibleSATrace cfg env sas t) :
    ∀ e ∈ t, e.isMutating = false := by
  intro e he
  unfold PossibleSATrace at h
  split at h
  · subst h
    rcases List.mem_append.mp he with hf | hf
    · obtain ⟨sa, _, rfl⟩ := List.mem_map.mp hf; rfl
    · simp only [List.mem_singleton] at hf; subst hf; rfl
  · subst h
    rcases List.mem_append.mp he with hf | hf
    · obtain ⟨sa, _, rfl⟩ := List.mem_map.mp hf; rfl
    · simp only [List.mem_singleton] at hf; subst hf; rfl

/-- C1: with the dry-run flag enabled, for every set of discovered
resources and every provider environment, a possible `cleanupProject`
trace contains no mutating (delete/release) provider call for any of the
cleaners it runs (VM instances, disks, regional and global addresses,
service accounts). -/
theorem claim1_dry_run_issues_no_mutating_call (cfg : Config) (env : Env)
    (project : String) (res : ProjectResources) (t : List Event)
    (hdry : cfg.dryRun = true)
    (h : PossibleCleanupTrace cfg env project res t) :
    t.any Event.isMutating = false := by
  rw [List.any_eq_false]
  intro e he
  obtain ⟨tVM, tSA, tOthers, hVM, hSA, ⟨sched, hrun⟩, rfl⟩ := h
  rw [Bool.not_eq_true]
  rcases List.mem_append.mp he with h1 | h2
  · rcases List.mem_append.mp h1 with hv | ho
    · exact possibleVMTrace_dry cfg env res.instances tVM hdry hVM e hv
    · obtain ⟨q, hq, he'⟩ := runSched_mem _ _ _ hrun e ho
      simp only [List.mem_cons, List.not_mem_nil, or_false] at hq
      rcases hq with rfl | rfl | hq3
      · exact deleteDisks_dry cfg env res.disks hdry e he'
      · exact releaseStaticIPs_dry cfg env res.addresses res.globalAddresses hdry e he'
      · subst hq3
        exact possibleSATrace_dry cfg env res.serviceAccounts _ hdry hSA e he'
  · simp only [List.mem_singleton] at h2; subst h2; rfl

/-- Witness for C1 at a concrete input: a dry-run configuration, the
all-success environment and an empty project. -/
theorem claim1_witness :
    cfgDry.dryRun = true ∧
    PossibleCleanupTrace cfgDry env0 "p1" res0 (emptyResTrace "p1") ∧
    (emptyResTrace "p1").any Event.isMutating = false := by
  have hp : PossibleCleanupTrace cfgDry env0 "p1" res0 (emptyResTrace "p1") := by
    refine ⟨[Event.logNoneFound .inst], [Event.logNoneFound .sa],
      [Event.logNoneFound .disk, Event.logNoneFound .addr, Event.logNoneFound .sa],
      ?_, ?_, ⟨[0, 1, 2], ?_⟩, ?_⟩
    · simp [PossibleVMTrace, res0]
    · simp [PossibleSATrace, res0, targetAccounts]
    · rfl
    · rfl
  exact ⟨rfl, hp, claim1_dry_run_issues_no_mutating_call cfgDry env0 "p1" res0
    (emptyResTrace "p1") rfl hp⟩

/-- Every event of a disk-loop iteration carries the disk's name. -/
theorem diskItemTrace_name (cfg : Config) (env : Env) (d : Disk) :
    ∀ e ∈ diskItemTrace cfg env d, e.nameOf = some d.name := by
  intro e he
  unfold diskItemTrace at he
  split at he
  · simp only [List.mem_singleton] at he; subst he; rfl
  · rcases List.mem_cons.mp he with h | he'
    · subst h; rfl
    · split at he'
      · rcases List.mem_cons.mp he' with h | he''
        · subst h; rfl
        · split at he''
          · rcases List.mem_cons.mp he'' with h | he'''
            · subst h; rfl
            · split at he''' <;>
                (simp only [List.mem_singleton] at he'''; subst he'''; rfl)
          · simp only [List.mem_singleton] at he''; subst he''; rfl
      · simp at he'

/-- Every event of a regional-address-loop iteration carries the
address's name. -/
theorem addressItemTrace_name (cfg : Config) (env : Env) (a : Address) :
    ∀ e ∈ addressItemTrace cfg env a, e.nameOf = some a.name := by
  intro e he
  unfold addressItemTrace at he
  split at he
  · simp only [List.mem_singleton] at he; subst he; rfl
  · rcases List.mem_cons.mp he with h | he'
    · subst h; rfl
    · split at he'
      · rcases List.mem_cons.mp he' with h | he''
        · subst h; rfl
        · split at he''
          · rcases List.mem_cons.mp he'' with h | he'''
            · subst h; rfl
            · split at he''' <;>
                (simp only [List.mem_singleton] at he'''; subst he'''; rfl)
          · simp only [List.mem_singleton] at he''; subst he''; rfl
      · simp at he'

/-- Every event of a global-address-loop iteration carries the address's
name. -/
theorem globalAddressItemTrace_name (cfg : Config) (env : Env) (g : GlobalAddress) :
    ∀ e ∈ globalAddressItemTrace cfg env g, e.nameOf = some g.name := by
  intro e he
  unfold globalAddressItemTrace at he
  split at he
  · simp only [List.mem_singleton] at he; subst he; rfl
  · rcases List.mem_cons.mp he with h | he'
    · subst h; rfl
    · split at he'
      · rcases List.mem_cons.mp he' with h | he''
        · subst h; rfl
        · split at he''
          · rcases List.mem_cons.mp he'' with h | he'''
            · subst h; rfl
            · split at he''' <;>
                (simp only [List.mem_singleton] at he'''; subst he'''; rfl)
          · simp only [List.mem_singleton] at he''; subst he''; rfl
      · simp at he'

/-- An event whose kind is neither bucket nor object is not a
bucket/object mutation. -/
theorem isBucketMutation_false_of_kind (e : Event)
    (h1 : e.kindOf ≠ some Kind.bucket) (h2 : e.kindOf ≠ some Kind.obj) :
    e.isBucketMutation = false := by
  cases e <;> try rfl
  rename_i k n
  cases k <;> simp_all

/-- C2: for every configuration (either value of the dry-run flag), every
environment and every set of resources, a possible `cleanupProject` trace
contains no bucket or object deletion call, and contains the warning that
buckets must be deleted manually. -/
theorem claim2_orchestrator_never_deletes_buckets (cfg : Config) (env : Env)
    (project : String) (res : ProjectResources) (t : List Event)
    (h : PossibleCleanupTrace cfg env project res t) :
    t.any Event.isBucketMutation = false ∧ Event.bucketWarning project ∈ t := by
  obtain ⟨tVM, tSA, tOthers, hVM, hSA, ⟨sched, hrun⟩, rfl⟩ := h
  constructor
  · rw [List.any_eq_false]
    intro e he
    rw [Bool.not_eq_true]
    rcases List.mem_append.mp he with h1 | h2
    · rcases List.mem_append.mp h1 with hv | ho
      · have hk := possibleVMTrace_kind cfg env res.instances tVM hVM e hv
        exact isBucketMutation_false_of_kind e (by rw [hk]; decide) (by rw [hk]; decide)
      · have hk := cleanupOthers_kind cfg env res tSA tOthers hSA sched hrun e ho
        rcases hk with h' | h' | h' | h' <;>
          exact isBucketMutation_false_of_kind e (by rw [h']; decide) (by rw [h']; decide)
    · simp only [List.mem_singleton] at h2; subst h2; rfl
  · exact List.mem_append.mpr (Or.inr (List.mem_singleton.mpr rfl))

/-- Witness for C2 at a concrete input: the live configuration and an
empty project. -/
theorem claim2_witness :
    PossibleCleanupTrace cfgLive env0 "p1" res0 (emptyResTrace "p1") ∧
    (emptyResTrace "p1").any Event.isBucketMutation = false ∧
    Event.bucketWarning "p1" ∈ emptyResTrace "p1" := by
  have hp : PossibleCleanupTrace cfgLive env0 "p1" res0 (emptyResTrace "p1") := by
    refine ⟨[Event.logNoneFound .inst], [Event.logNoneFound .sa],
      [Event.logNoneFound .disk, Event.logNoneFound .addr, Event.logNoneFound .sa],
      ?_, ?_, ⟨[0, 1, 2], ?_⟩, ?_⟩
    · simp [PossibleVMTrace, res0]
    · simp [PossibleSATrace, res0, targetAccounts]
    · rfl
    · rfl
  exact ⟨hp, claim2_orchestrator_never_deletes_buckets cfgLive env0 "p1" res0
    (emptyResTrace "p1") hp⟩

/-- C3: a disk with one or more attachment references is never a delete
candidate, whatever its size or location: its loop iteration only emits
the skip log, it is not in the candidate count, and no delete call with
its name is ever issued by `deleteDisks` (when every listed disk of that
name is attached). -/
theorem claim3_attached_disk_never_deleted (cfg : Config) (env : Env)
    (disks : List Disk) (d : Disk) (hd : d.users ≠ []) :
    diskItemTrace cfg env d = [Event.logSkip .disk d.name] ∧
    d ∉ diskCandidates disks ∧
    (∀ n, (∀ d' ∈ disks, d'.name = n → d'.users ≠ []) →
      Event.deleteCall .disk n ∉ deleteDisks cfg env disks) := by
  refine ⟨?_, ?_, ?_⟩
  · unfold diskItemTrace
    rw [if_pos (List.length_pos.mpr hd)]
  · intro hmem
    have h2 := (List.mem_filter.mp hmem).2
    simp only [beq_iff_eq] at h2
    exact hd (List.length_eq_zero.mp h2)
  · intro n hall hmem
    unfold deleteDisks at hmem
    rcases List.mem_append.mp hmem with h1 | h1
    · obtain ⟨l, hl, he'⟩ := List.mem_flatten.mp h1
      obtain ⟨d', hd', rfl⟩ := List.mem_map.mp hl
      have hname := diskItemTrace_name cfg env d' _ he'
      simp only [Event.nameOf, Option.some.injEq] at hname
      have husers : d'.users ≠ [] := hall d' hd' hname.symm
      rw [diskItemTrace, if_pos (List.length_pos.mpr husers)] at he'
      simp at he'
    · split at h1
      · simp at h1
      · split at h1 <;> simp at h1

/-- C4: an address whose status is `"IN_USE"` (regional or global) is
never a release candidate: its loop iteration only emits the skip log, it
is not counted, and no release call with its name is issued (when every
listed address of that name is in use); and the reported total is the sum
of the regional and global candidate counts in one event. -/
theorem claim4_in_use_address_never_released (cfg : Config) (env : Env)
    (as : List Address) (gs : List GlobalAddress) (a : Address)
    (g : GlobalAddress) (ha : a.status = "IN_USE") (hg : g.status = "IN_USE") :
    addressItemTrace cfg env a = [Event.logSkip .addr a.name] ∧
    a ∉ addrCandidates as ∧
    globalAddressItemTrace cfg env g = [Event.logSkip .gaddr g.name] ∧
    g ∉ gaddrCandidates gs ∧
    (∀ n, (∀ a' ∈ as, a'.name = n → a'.status = "IN_USE") →
          (∀ g' ∈ gs, g'.name = n → g'.status = "IN_USE") →
      Event.deleteCall .addr n ∉ releaseStaticIPs cfg env as gs ∧
      Event.deleteCall .gaddr n ∉ releaseStaticIPs cfg env as gs) ∧
    (cfg.dryRun = true →
     (addrCandidates as).length + (gaddrCandidates gs).length ≠ 0 →
      Event.wouldDelete .addr ((addrCandidates as).length + (gaddrCandidates gs).length)
        ∈ releaseStaticIPs cfg env as gs) := by
  refine ⟨?_, ?_, ?_, ?_, ?_, ?_⟩
  · unfold addressItemTrace
    rw [if_pos ha]
  · intro hmem
    have h2 := (List.mem_filter.mp hmem).2
    simp only [decide_not, Bool.not_eq_true', decide_eq_false_iff_not] at h2
    exact h2 ha
  · unfold globalAddressItemTrace
    rw [if_pos hg]
  · intro hmem
    have h2 := (List.mem_filter.mp hmem).2
    simp only [decide_not, Bool.not_eq_true', decide_eq_false_iff_not] at h2
    exact h2 hg
  · intro n hallA hallG
    constructor
    · intro hmem
      unfold releaseStaticIPs at hmem
      rcases List.mem_append.mp hmem with h1 | h1
      · rcases List.mem_append.mp h1 with h2 | h2
        · obtain ⟨l, hl, he'⟩ := List.mem_flatten.mp h2
          obtain ⟨a', ha', rfl⟩ := List.mem_map.mp hl
          have hname := addressItemTrace_name cfg env a' _ he'
          simp only [Event.nameOf, Option.some.injEq] at hname
          have hst : a'.status = "IN_USE" := hallA a' ha' hname.symm
          rw [addressItemTrace, if_pos hst] at he'
          simp at he'
        · obtain ⟨l, hl, he'⟩ := List.mem_flatten.mp h2
          obtain ⟨g', _, rfl⟩ := List.mem_map.mp hl
          have hk := globalAddressItemTrace_kind cfg env g' _ he'
          simp at hk
      · split at h1
        · simp at h1
        · split at h1 <;> simp at h1
    · intro hmem
      unfold releaseStaticIPs at hmem
      rcases List.mem_append.mp hmem with h1 | h1
      · rcases List.mem_append.mp h1 with h2 | h2
        · obtain ⟨l, hl, he'⟩ := List.mem_flatten.mp h2
          obtain ⟨a', _, rfl⟩ := List.mem_map.mp hl
          have hk := addressItemTrace_kind cfg env a' _ he'
          simp at hk
        · obtain ⟨l, hl, he'⟩ := List.mem_flatten.mp h2
          obtain ⟨g', hg', rfl⟩ := List.mem_map.mp hl
          have hname := globalAddressItemTrace_name cfg env g' _ he'
          simp only [Event.nameOf, Option.some.injEq] at hname
          have hst : g'.status = "IN_USE" := hallG g' hg' hname.symm
          rw [globalAddressItemTrace, if_pos hst] at he'
          simp at he'
      · split at h1
        · simp at h1
        · split at h1 <;> simp at h1
  · intro hdry hne
    unfold releaseStaticIPs
    refine List.mem_append.mpr (Or.inr ?_)
    rw [if_neg hne, if_pos hdry]
    exact List.mem_singleton.mpr rfl

/-- Witness for C4 at a concrete input: one in-use and one reserved
address in each scope, dry-run configuration. -/
theorem claim4_witness :
    aInUse.status = "IN_USE" ∧ gInUse.status = "IN_USE" ∧
    (addressItemTrace cfgDry env0 aInUse = [Event.logSkip .addr aInUse.name] ∧
     aInUse ∉ addrCandidates [aInUse, aReserved] ∧
     globalAddressItemTrace cfgDry env0 gInUse = [Event.logSkip .gaddr gInUse.name] ∧
     gInUse ∉ gaddrCandidates [gInUse, gReserved] ∧
     (∀ n, (∀ a' ∈ [aInUse, aReserved], a'.name = n → a'.status = "IN_USE") →
           (∀ g' ∈ [gInUse, gReserved], g'.name = n → g'.status = "IN_USE") →
       Event.deleteCall .addr n ∉ releaseStaticIPs cfgDry env0 [aInUse, aReserved] [gInUse, gReserved] ∧
       Event.deleteCall .gaddr n ∉ releaseStaticIPs cfgDry env0 [aInUse, aReserved] [gInUse, gReserved]) ∧
     (cfgDry.dryRun = true →
      (addrCandidates [aInUse, aReserved]).length + (gaddrCandidates [gInUse, gReserved]).length ≠ 0 →
       Event.wouldDelete .addr
         ((addrCandidates [aInUse, aReserved]).length + (gaddrCandidates [gInUse, gReserved]).length)
         ∈ releaseStaticIPs cfgDry env0 [aInUse, aReserved] [gInUse, gReserved])) :=
  ⟨by decide, by decide,
   claim4_in_use_address_never_released cfgDry env0 [aInUse, aReserved]
     [gInUse, gReserved] aInUse gInUse (by decide) (by decide)⟩

/-- Witness for C3 at a concrete input: an attached and an unattached
disk, live configuration. -/
theorem claim3_witness :
    dAttached.users ≠ [] ∧
    (diskItemTrace cfgLive env0 dAttached = [Event.logSkip .disk dAttached.name] ∧
     dAttached ∉ diskCandidates [dAttached, dFree] ∧
     (∀ n, (∀ d' ∈ [dAttached, dFree], d'.name = n → d'.users ≠ []) →
       Event.deleteCall .disk n ∉ deleteDisks cfgLive env0 [dAttached, dFree])) :=
  ⟨by decide,
   claim3_attached_disk_never_deleted cfgLive env0 [dAttached, dFree] dAttached (by decide)⟩

/-- The first segment of a character-list split is the longest prefix not
containing the separator. -/
theorem splitOnChar_head (sep : Char) :
    ∀ l : List Char,
      (splitOnChar sep l).head? = some (l.takeWhile (fun c => c ≠ sep)) := by
  intro l
  induction l with
  | nil => rfl
  | cons c rest ih =>
    unfold splitOnChar
    by_cases hc : c = sep
    · rw [if_pos hc]
      rw [List.takeWhile_cons]
      simp [hc]
    · rw [if_neg hc]
      rcases hr : splitOnChar sep rest with _ | ⟨h, t⟩
      · rw [hr] at ih; simp at ih
      · rw [hr] at ih
        rw [List.head?_cons] at ih
        show ((c :: h) :: t).head? = _
        rw [List.head?_cons]
        rw [List.takeWhile_cons, if_pos (by simpa using hc)]
        rw [Option.some.injEq] at ih ⊢
        rw [ih]

/-- The candidate test of `deleteServiceAccounts` tests exactly the local
part of the email: the substring before the first `@`. -/
theorem saEmailMatches_eq (email : String) :
    saEmailMatches email = List.isPrefixOf saTag (localPartSpec email) := by
  unfold saEmailMatches localPartSpec
  rcases hr : splitOnChar '@' email.toList with _ | ⟨p, t⟩
  · have h := splitOnChar_head '@' email.toList
    rw [hr] at h; simp at h
  · have h := splitOnChar_head '@' email.toList
    rw [hr, List.head?_cons, Option.some.injEq] at h
    show List.isPrefixOf saTag p = _
    rw [h]

/-- Splitting a character list never yields the empty list of segments:
the first segment is always present. -/
theorem splitOnChar_ne_nil (sep : Char) (l : List Char) :
    splitOnChar sep l ≠ [] := by
  intro h
  have h2 := splitOnChar_head sep l
  rw [h] at h2
  simp at h2

/-- A delete call occurring in a service-account goroutine trace is the
delete of that account's resource name. -/
theorem saItemTrace_deleteCall (env : Env) (s : ServiceAccount) (k : Kind)
    (m : String) (h : Event.deleteCall k m ∈ saItemTrace env s) :
    k = Kind.sa ∧ m = s.saName := by
  unfold saItemTrace at h
  rcases List.mem_cons.mp h with h' | h'
  · simp only [Event.deleteCall.injEq] at h'
    exact h'
  · split at h' <;> simp at h'

/-- C5: a service account is a deletion candidate if and only if the
local part of its email (the substring before the `@`) starts with the
literal tag `"vsa-sa-gcnv"`; and every service-account delete call in a
possible `deleteServiceAccounts` trace is for a listed account that
passes the filter, so non-matching accounts are never deleted. -/
theorem claim5_candidate_iff_email_tag (sas : List ServiceAccount)
    (sa : ServiceAccount) :
    (sa ∈ targetAccounts sas ↔
      sa ∈ sas ∧ List.isPrefixOf saTag (localPartSpec sa.email) = true) ∧
    (∀ cfg env t n, PossibleSATrace cfg env sas t →
      Event.deleteCall .sa n ∈ t →
      ∃ s ∈ sas, saIsCandidate s = true ∧ s.saName = n) := by
  constructor
  · have h1 : saIsCandidate sa = List.isPrefixOf saTag (localPartSpec sa.email) :=
      saEmailMatches_eq sa.email
    rw [targetAccounts, List.mem_filter, h1]
  · intro cfg env t n hp hmem
    unfold PossibleSATrace at hp
    split at hp
    · subst hp
      rcases List.mem_append.mp hmem with hf | hf
      · obtain ⟨s, _, h⟩ := List.mem_map.mp hf; simp at h
      · simp at hf
    · split at hp
      · subst hp
        rcases List.mem_append.mp hmem with hf | hf
        · obtain ⟨s, _, h⟩ := List.mem_map.mp hf; simp at h
        · simp at hf
      · obtain ⟨sched, tDel, hrun, rfl⟩ := hp
        rcases List.mem_append.mp hmem with hf | hf
        · obtain ⟨s, _, h⟩ := List.mem_map.mp hf; simp at h
        · obtain ⟨q, hq, he'⟩ := runSched_mem _ _ _ hrun _ hf
          obtain ⟨s, hs, rfl⟩ := List.mem_map.mp hq
          obtain ⟨hk, hn⟩ := saItemTrace_deleteCall env s _ _ he'
          exact ⟨s, (List.mem_filter.mp hs).1, (List.mem_filter.mp hs).2, hn.symm⟩

/-- Witness for C5 at a concrete input: one matching and one
non-matching account. -/
theorem claim5_witness :
    (sa1 ∈ targetAccounts [sa1, saOther] ↔
      sa1 ∈ [sa1, saOther] ∧
      List.isPrefixOf saTag (localPartSpec sa1.email) = true) ∧
    (∀ cfg env t n, PossibleSATrace cfg env [sa1, saOther] t →
      Event.deleteCall .sa n ∈ t →
      ∃ s ∈ [sa1, saOther], saIsCandidate s = true ∧ s.saName = n) :=
  claim5_candidate_iff_email_tag [sa1, saOther] sa1

/-- C10: the candidate filter is total; for an email with no `@` the
split yields the whole string as its (always present) first element, so
the tag test applies to the entire email. -/
theorem claim10_filter_total_without_at (email : String)
    (hno : '@' ∉ email.toList) :
    saEmailMatches email = List.isPrefixOf saTag email.toList ∧
    splitOnChar '@' email.toList ≠ [] := by
  constructor
  · rw [saEmailMatches_eq]
    unfold localPartSpec
    congr 1
    rw [List.takeWhile_eq_self_iff]
    intro c hc
    simp only [ne_eq, decide_eq_true_eq]
    intro h
    exact hno (h ▸ hc)
  · exact splitOnChar_ne_nil _ _

/-- Witness for C10 at concrete inputs: a tag-matching email with no `@`
and the empty email. -/
theorem claim10_witness :
    ('@' ∉ "vsa-sa-gcnv-noat".toList ∧
     saEmailMatches "vsa-sa-gcnv-noat" = List.isPrefixOf saTag "vsa-sa-gcnv-noat".toList ∧
     splitOnChar '@' "vsa-sa-gcnv-noat".toList ≠ []) ∧
    ('@' ∉ "".toList ∧
     saEmailMatches "" = List.isPrefixOf saTag "".toList ∧
     splitOnChar '@' "".toList ≠ []) :=
  ⟨⟨by decide, claim10_filter_total_without_at "vsa-sa-gcnv-noat" (by decide)⟩,
   ⟨by decide, claim10_filter_total_without_at "" (by decide)⟩⟩

/-- C7 counterexample: at a concrete input in live mode with a succeeding
provider, the service-account deletion path issues its delete call and
reports the account's success with no operation wait anywhere in its
trace, so not every delete call is followed by a completion wait. -/
theorem claim7_counterexample :
    saItemTrace env0 sa1 =
      [Event.deleteCall .sa sa1.saName, Event.logDeleted .sa sa1.email] ∧
    (saItemTrace env0 sa1).any Event.isWaitOp = false := by
  constructor
  · rfl
  · rfl

/-- C7 (amended): in live mode, a succeeding instance, disk, regional- or
global-address deletion is followed by a wait for its asynchronous
operation before the success log; the service-account deletion is a
single synchronous call whose success is logged with no separate
operation wait. -/
theorem claim7_amended_waits (cfg : Config) (env : Env)
    (i : Instance) (d : Disk) (a : Address) (g : GlobalAddress)
    (s : ServiceAccount) (hlive : cfg.dryRun = false)
    (hiD : env.instDeleteOk i.name = true) (hiW : env.instWaitOk i.name = true)
    (hdU : d.users = []) (hdD : env.diskDeleteOk d.name = true)
    (hdW : env.diskWaitOk d.name = true)
    (haS : a.status ≠ "IN_USE") (haD : env.addrDeleteOk a.name = true)
    (haW : env.addrWaitOk a.name = true)
    (hgS : g.status ≠ "IN_USE") (hgD : env.gaddrDeleteOk g.name = true)
    (hgW : env.gaddrWaitOk g.name = true)
    (hsD : env.saDeleteOk s.saName = true) :
    instanceItemTrace env i =
      [Event.deleteCall .inst i.name, Event.waitOp .inst i.name,
       Event.logDeleted .inst i.name] ∧
    diskItemTrace cfg env d =
      [Event.logFound .disk d.name, Event.deleteCall .disk d.name,
       Event.waitOp .disk d.name, Event.logDeleted .disk d.name] ∧
    addressItemTrace cfg env a =
      [Event.logFound .addr a.name, Event.deleteCall .addr a.name,
       Event.waitOp .addr a.name, Event.logDeleted .addr a.name] ∧
    globalAddressItemTrace cfg env g =
      [Event.logFound .gaddr g.name, Event.deleteCall .gaddr g.name,
       Event.waitOp .gaddr g.name, Event.logDeleted .gaddr g.name] ∧
    saItemTrace env s =
      [Event.deleteCall .sa s.saName, Event.logDeleted .sa s.email] ∧
    (saItemTrace env s).any Event.isWaitOp = false := by
  have h5 : saItemTrace env s =
      [Event.deleteCall .sa s.saName, Event.logDeleted .sa s.email] := by
    simp [saItemTrace, hsD]
  refine ⟨?_, ?_, ?_, ?_, h5, ?_⟩
  · simp [instanceItemTrace, hiD, hiW]
  · simp [diskItemTrace, hdU, hlive, hdD, hdW]
  · simp [addressItemTrace, haS, hlive, haD, haW]
  · simp [globalAddressItemTrace, hgS, hlive, hgD, hgW]
  · rw [h5]; rfl

/-- Witness for the amended C7 at concrete inputs: the live
configuration, the all-success environment and one resource of each
kind. -/
theorem claim7_witness :
    cfgLive.dryRun = false ∧ dFree.users = [] ∧
    aReserved.status ≠ "IN_USE" ∧ gReserved.status ≠ "IN_USE" ∧
    (instanceItemTrace env0 i1 =
       [Event.deleteCall .inst i1.name, Event.waitOp .inst i1.name,
        Event.logDeleted .inst i1.name] ∧
     diskItemTrace cfgLive env0 dFree =
       [Event.logFound .disk dFree.name, Event.deleteCall .disk dFree.name,
        Event.waitOp .disk dFree.name, Event.logDeleted .disk dFree.name] ∧
     addressItemTrace cfgLive env0 aReserved =
       [Event.logFound .addr aReserved.name, Event.deleteCall .addr aReserved.name,
        Event.waitOp .addr aReserved.name, Event.logDeleted .addr aReserved.name] ∧
     globalAddressItemTrace cfgLive env0 gReserved =
       [Event.logFound .gaddr gReserved.name, Event.deleteCall .gaddr gReserved.name,
        Event.waitOp .gaddr gReserved.name, Event.logDeleted .gaddr gReserved.name] ∧
     saItemTrace env0 sa1 =
       [Event.deleteCall .sa sa1.saName, Event.logDeleted .sa sa1.email] ∧
     (saItemTrace env0 sa1).any Event.isWaitOp = false) :=
  ⟨rfl, rfl, by decide, by decide,
   claim7_amended_waits cfgLive env0 i1 dFree aReserved gReserved sa1
     rfl rfl rfl rfl rfl rfl (by decide) rfl rfl (by decide) rfl rfl rfl⟩

/-- A disk, address, global-address or service-account delete call is not
an instance event. -/
theorem isNonVMDelete_kind_ne_inst (e : Event)
    (h : e.isNonVMDelete = true) : e.kindOf ≠ some Kind.inst := by
  cases e <;> try simp_all
  rename_i k n
  cases k <;> simp_all

/-- C6: in every possible `cleanupProject` trace, every VM-cleaner event
occurs strictly before every disk, address or service-account delete
call: the VM pass runs to completion before the other cleaners start
deleting. -/
theorem claim6_vm_pass_before_other_deletes (cfg : Config) (env : Env)
    (project : String) (res : ProjectResources) (t : List Event)
    (h : PossibleCleanupTrace cfg env project res t) :
    ∀ (i j : Nat) (ei ej : Event), t[i]? = some ei → t[j]? = some ej →
      ei.kindOf = some Kind.inst → ej.isNonVMDelete = true → i < j := by
  obtain ⟨tVM, tSA, tOthers, hVM, hSA, ⟨sched, hrun⟩, rfl⟩ := h
  intro i j ei ej hi hj hki hkj
  rw [List.append_assoc] at hi hj
  have hAi : i < tVM.length := by
    by_contra hge
    push_neg at hge
    rw [List.getElem?_append_right hge] at hi
    have hmem := List.getElem?_mem hi
    rcases List.mem_append.mp hmem with hm | hm
    · rcases cleanupOthers_kind cfg env res tSA tOthers hSA sched hrun ei hm with
        h' | h' | h' | h' <;> rw [h'] at hki <;> cases hki
    · simp only [List.mem_singleton] at hm
      subst hm
      cases hki
  have hBj : tVM.length ≤ j := by
    by_contra hlt
    push_neg at hlt
    rw [List.getElem?_append_left hlt] at hj
    have hmem := List.getElem?_mem hj
    have hk := possibleVMTrace_kind cfg env res.instances tVM hVM ej hmem
    exact isNonVMDelete_kind_ne_inst ej hkj hk
  exact Nat.lt_of_lt_of_le hAi hBj

/-- Witness for C6 at a concrete input: a project with one running
instance and one unattached disk, live mode, all-success environment. -/
theorem claim6_witness :
    PossibleCleanupTrace cfgLive env0 "p1"
      { instances := [i1], disks := [dFree], addresses := [],
        globalAddresses := [], serviceAccounts := [] }
      [Event.logFound .inst i1.name, Event.deleteCall .inst i1.name,
       Event.waitOp .inst i1.name, Event.logDeleted .inst i1.name,
       Event.logFound .disk dFree.name, Event.deleteCall .disk dFree.name,
       Event.waitOp .disk dFree.name, Event.logDeleted .disk dFree.name,
       Event.logNoneFound .addr, Event.logNoneFound .sa,
       Event.bucketWarning "p1"] ∧
    (∀ (i j : Nat) (ei ej : Event),
      [Event.logFound .inst i1.name, Event.deleteCall .inst i1.name,
       Event.waitOp .inst i1.name, Event.logDeleted .inst i1.name,
       Event.logFound .disk dFree.name, Event.deleteCall .disk dFree.name,
       Event.waitOp .disk dFree.name, Event.logDeleted .disk dFree.name,
       Event.logNoneFound .addr, Event.logNoneFound .sa,
       Event.bucketWarning "p1"][i]? = some ei →
      [Event.logFound .inst i1.name, Event.deleteCall .inst i1.name,
       Event.waitOp .inst i1.name, Event.logDeleted .inst i1.name,
       Event.logFound .disk dFree.name, Event.deleteCall .disk dFree.name,
       Event.waitOp .disk dFree.name, Event.logDeleted .disk dFree.name,
       Event.logNoneFound .addr, Event.logNoneFound .sa,
       Event.bucketWarning "p1"][j]? = some ej →
      ei.kindOf = some Kind.inst → ej.isNonVMDelete = true → i < j) := by
  have hp : PossibleCleanupTrace cfgLive env0 "p1"
      { instances := [i1], disks := [dFree], addresses := [],
        globalAddresses := [], serviceAccounts := [] }
      [Event.logFound .inst i1.name, Event.deleteCall .inst i1.name,
       Event.waitOp .inst i1.name, Event.logDeleted .inst i1.name,
       Event.logFound .disk dFree.name, Event.deleteCall .disk dFree.name,
       Event.waitOp .disk dFree.name, Event.logDeleted .disk dFree.name,
       Event.logNoneFound .addr, Event.logNoneFound .sa,
       Event.bucketWarning "p1"] := by
    refine ⟨[Event.logFound .inst i1.name, Event.deleteCall .inst i1.name,
             Event.waitOp .inst i1.name, Event.logDeleted .inst i1.name],
            [Event.logNoneFound .sa],
            [Event.logFound .disk dFree.name, Event.deleteCall .disk dFree.name,
             Event.waitOp .disk dFree.name, Event.logDeleted .disk dFree.name,
             Event.logNoneFound .addr, Event.logNoneFound .sa],
            ?_, ?_, ⟨[0, 0, 0, 0, 1, 2], ?_⟩, ?_⟩
    · exact ⟨[0, 0, 0], _, rfl, rfl⟩
    · simp [PossibleSATrace, targetAccounts]
    · rfl
    · rfl
  exact ⟨hp, claim6_vm_pass_before_other_deletes cfgLive env0 "p1" _ _ hp⟩

/-- The header of any configured project occurs in the per-project
section of the main trace. -/
theorem header_mem_zipWith :
    ∀ (ps : List String) (ts : List (List Event)) (p : String),
      p ∈ ps → ps.length = ts.length →
      Event.projectHeader p ∈
        (List.zipWith (fun q tq => Event.projectHeader q :: tq) ps ts).flatten := by
  intro ps
  induction ps with
  | nil => intro ts p hp _; simp at hp
  | cons q qs ih =>
    intro ts p hp hlen
    cases ts with
    | nil => simp at hlen
    | cons tq ts =>
      simp only [List.zipWith_cons_cons, List.flatten_cons]
      rcases List.mem_cons.mp hp with h | hp'
      · subst h
        exact List.mem_append.mpr (Or.inl (List.mem_cons_self _ _))
      · exact List.mem_append.mpr (Or.inr (ih ts p hp' (by simpa using hlen)))


/-- In live mode a disk-loop iteration contains exactly one delete call
when the disk is a candidate and none otherwise, whatever the provider
answers. -/
theorem diskItemTrace_filter_delete (cfg : Config) (env : Env) (d : Disk)
    (hlive : cfg.dryRun = false) :
    ((diskItemTrace cfg env d).filter (Event.isDeleteOf Kind.disk)).length
      = if d.users.length == 0 then 1 else 0 := by
  unfold diskItemTrace
  by_cases hu : d.users.length > 0
  · rw [if_pos hu]
    have h0 : (d.users.length == 0) = false := by
      simp only [beq_eq_false_iff_ne, ne_eq]
      omega
    rw [h0]
    rfl
  · rw [if_neg hu]
    have h0 : (d.users.length == 0) = true := by
      simp only [beq_iff_eq]
      omega
    rw [h0]
    cases hD : env.diskDeleteOk d.name <;> cases hW : env.diskWaitOk d.name <;>
      simp [hlive, hD, hW]

/-- In live mode the per-disk loop of `deleteDisks` issues exactly one
delete call per candidate disk. -/
theorem deleteDisks_flatten_calls (cfg : Config) (env : Env)
    (hlive : cfg.dryRun = false) :
    ∀ ds : List Disk,
      (((ds.map (diskItemTrace cfg env)).flatten).filter
        (Event.isDeleteOf Kind.disk)).length = (diskCandidates ds).length := by
  intro ds
  induction ds with
  | nil => rfl
  | cons d ds ih =>
    simp only [List.map_cons, List.flatten_cons, List.filter_append, List.length_append]
    rw [ih, diskItemTrace_filter_delete cfg env d hlive]
    simp only [diskCandidates, List.filter_cons]
    by_cases hc : (d.users.length == 0) = true
    · rw [if_pos hc, if_pos hc, List.length_cons]
      omega
    · rw [if_neg hc, if_neg hc]
      omega

/-- In live mode `deleteDisks` issues exactly one delete call per
candidate disk, regardless of which deletions fail. -/
theorem deleteDisks_one_call_per_candidate (cfg : Config) (env : Env)
    (disks : List Disk) (hlive : cfg.dryRun = false) :
    ((deleteDisks cfg env disks).filter (Event.isDeleteOf Kind.disk)).length
      = (diskCandidates disks).length := by
  unfold deleteDisks
  rw [List.filter_append, List.length_append]
  have htail :
      (if (diskCandidates disks).length = 0 then [Event.logNoneFound Kind.disk]
       else if cfg.dryRun = true then
         [Event.wouldDelete Kind.disk (diskCandidates disks).length]
       else []).filter (Event.isDeleteOf Kind.disk) = [] := by
    split
    · rfl
    · rw [if_neg (by simp [hlive])]
      rfl
  rw [htail]
  simp only [List.length_nil, Nat.add_zero]
  exact deleteDisks_flatten_calls cfg env hlive disks

/-- An event about some resource kind is not a project header. -/
theorem isHeader_false_of_kind (e : Event) (k : Kind)
    (h : e.kindOf = some k) : e.isHeader = false := by
  cases e <;> simp_all

/-- A possible `cleanupProject` trace contains no project header. -/
theorem possibleCleanupTrace_no_header (cfg : Config) (env : Env)
    (project : String) (res : ProjectResources) (t : List Event)
    (h : PossibleCleanupTrace cfg env project res t) :
    ∀ e ∈ t, e.isHeader = false := by
  obtain ⟨tVM, tSA, tOthers, hVM, hSA, ⟨sched, hrun⟩, rfl⟩ := h
  intro e he
  rcases List.mem_append.mp he with h1 | h2
  · rcases List.mem_append.mp h1 with hv | ho
    · exact isHeader_false_of_kind e _ (possibleVMTrace_kind cfg env res.instances tVM hVM e hv)
    · rcases cleanupOthers_kind cfg env res tSA tOthers hSA sched hrun e ho with
        h' | h' | h' | h' <;> exact isHeader_false_of_kind e _ h'
  · simp only [List.mem_singleton] at h2; subst h2; rfl

/-- The headers of the main trace are exactly the configured project IDs
in configuration order. -/
theorem mainTrace_headers_in_order (cfg : Config) (env : Env)
    (res : String → ProjectResources) :
    ∀ (ps : List String) (ts : List (List Event)),
      List.Forall₂ (fun p tp => PossibleCleanupTrace cfg env p (res p) tp) ps ts →
      (List.zipWith (fun q tq => Event.projectHeader q :: tq) ps ts).flatten.filter
          Event.isHeader
        = ps.map Event.projectHeader := by
  intro ps ts hf
  induction hf with
  | nil => rfl
  | @cons p tp ps' ts' hrel hrest ih =>
    simp only [List.zipWith_cons_cons, List.flatten_cons, List.filter_append,
      List.filter_cons, List.map_cons]
    rw [ih]
    have hnil : tp.filter Event.isHeader = [] := by
      rw [List.filter_eq_nil_iff]
      intro e he
      rw [possibleCleanupTrace_no_header cfg env p (res p) tp hrel e he]
      simp
    rw [hnil]
    rfl

/-- C8: per-item delete failures are logged with the item's name, are
never retried (still exactly one delete call per candidate), and do not
abort sibling deletions; and for every environment the driver processes
every configured project (each header appears) and always ends with the
completion banner. -/
theorem claim8_failures_dont_abort (cfg : Config) (env : Env)
    (res : String → ProjectResources) (t : List Event)
    (disks : List Disk) (d : Disk)
    (hmain : PossibleMainTrace cfg env res t)
    (hlive : cfg.dryRun = false) (hd : d ∈ disks) (hdu : d.users = [])
    (hfail : env.diskDeleteOk d.name = false) :
    t.getLast? = some Event.doneBanner ∧
    (∀ p ∈ cfg.projectIDs, Event.projectHeader p ∈ t) ∧
    t.filter Event.isHeader = cfg.projectIDs.map Event.projectHeader ∧
    ((deleteDisks cfg env disks).filter (Event.isDeleteOf Kind.disk)).length
      = (diskCandidates disks).length ∧
    Event.logDeleteError .disk d.name ∈ deleteDisks cfg env disks ∧
    Event.deleteCall .disk d.name ∈ deleteDisks cfg env disks := by
  obtain ⟨ts, hf, rfl⟩ := hmain
  have hitem : diskItemTrace cfg env d =
      [Event.logFound .disk d.name, Event.deleteCall .disk d.name,
       Event.logDeleteError .disk d.name] := by
    simp [diskItemTrace, hdu, hlive, hfail]
  refine ⟨?_, ?_, ?_, deleteDisks_one_call_per_candidate cfg env disks hlive, ?_, ?_⟩
  · rw [← List.cons_append]
    exact List.getLast?_concat _
  · intro p hp
    refine List.mem_cons_of_mem _ (List.mem_append.mpr (Or.inl ?_))
    exact header_mem_zipWith cfg.projectIDs ts p hp hf.length_eq
  · rw [List.filter_cons, List.filter_append]
    rw [mainTrace_headers_in_order cfg env res cfg.projectIDs ts hf]
    simp
  · refine List.mem_append.mpr (Or.inl ?_)
    refine List.mem_flatten.mpr ⟨diskItemTrace cfg env d, List.mem_map_of_mem _ hd, ?_⟩
    rw [hitem]
    simp
  · refine List.mem_append.mpr (Or.inl ?_)
    refine List.mem_flatten.mpr ⟨diskItemTrace cfg env d, List.mem_map_of_mem _ hd, ?_⟩
    rw [hitem]
    simp

/-- Witness for C8 at a concrete input: one configured project with no
resources, a disk list with one failing and one succeeding candidate. -/
theorem claim8_witness :
    PossibleMainTrace cfgLive envDiskFail (fun _ => res0)
      [Event.startBanner, Event.projectHeader "p1", Event.logNoneFound .inst,
       Event.logNoneFound .disk, Event.logNoneFound .addr, Event.logNoneFound .sa,
       Event.bucketWarning "p1", Event.doneBanner] ∧
    cfgLive.dryRun = false ∧ dFail ∈ [dFail, dFree] ∧ dFail.users = [] ∧
    envDiskFail.diskDeleteOk dFail.name = false ∧
    ([Event.startBanner, Event.projectHeader "p1", Event.logNoneFound .inst,
      Event.logNoneFound .disk, Event.logNoneFound .addr, Event.logNoneFound .sa,
      Event.bucketWarning "p1", Event.doneBanner].getLast? = some Event.doneBanner ∧
     (∀ p ∈ cfgLive.projectIDs,
       Event.projectHeader p ∈
         [Event.startBanner, Event.projectHeader "p1", Event.logNoneFound .inst,
          Event.logNoneFound .disk, Event.logNoneFound .addr, Event.logNoneFound .sa,
          Event.bucketWarning "p1", Event.doneBanner]) ∧
     [Event.startBanner, Event.projectHeader "p1", Event.logNoneFound .inst,
      Event.logNoneFound .disk, Event.logNoneFound .addr, Event.logNoneFound .sa,
      Event.bucketWarning "p1", Event.doneBanner].filter Event.isHeader
       = cfgLive.projectIDs.map Event.projectHeader ∧
     ((deleteDisks cfgLive envDiskFail [dFail, dFree]).filter
        (Event.isDeleteOf Kind.disk)).length
       = (diskCandidates [dFail, dFree]).length ∧
     Event.logDeleteError .disk dFail.name ∈ deleteDisks cfgLive envDiskFail [dFail, dFree] ∧
     Event.deleteCall .disk dFail.name ∈ deleteDisks cfgLive envDiskFail [dFail, dFree]) := by
  have hp : PossibleCleanupTrace cfgLive envDiskFail "p1" res0 (emptyResTrace "p1") := by
    refine ⟨[Event.logNoneFound .inst], [Event.logNoneFound .sa],
      [Event.logNoneFound .disk, Event.logNoneFound .addr, Event.logNoneFound .sa],
      ?_, ?_, ⟨[0, 1, 2], ?_⟩, ?_⟩
    · simp [PossibleVMTrace, res0]
    · simp [PossibleSATrace, res0, targetAccounts]
    · rfl
    · rfl
  have hm : PossibleMainTrace cfgLive envDiskFail (fun _ => res0)
      [Event.startBanner, Event.projectHeader "p1", Event.logNoneFound .inst,
       Event.logNoneFound .disk, Event.logNoneFound .addr, Event.logNoneFound .sa,
       Event.bucketWarning "p1", Event.doneBanner] :=
    ⟨[emptyResTrace "p1"], List.Forall₂.cons hp List.Forall₂.nil, rfl⟩
  exact ⟨hm, rfl, by simp, rfl, rfl,
    claim8_failures_dont_abort cfgLive envDiskFail (fun _ => res0) _
      [dFail, dFree] dFail hm rfl (by simp) rfl rfl⟩

/-- In live mode, when its delete call succeeds, a candidate disk's loop
iteration contributes exactly its delete call immediately followed by its
operation wait; a skipped disk contributes nothing. -/
theorem diskItemTrace_filter_seq (cfg : Config) (env : Env) (d : Disk)
    (hlive : cfg.dryRun = false) (hok : env.diskDeleteOk d.name = true) :
    (diskItemTrace cfg env d).filter (Event.isDeleteOrWaitOf Kind.disk)
      = if d.users.length == 0 then
          [Event.deleteCall .disk d.name, Event.waitOp .disk d.name]
        else [] := by
  unfold diskItemTrace
  by_cases hu : d.users.length > 0
  · rw [if_pos hu]
    have h0 : (d.users.length == 0) = false := by
      simp only [beq_eq_false_iff_ne, ne_eq]
      omega
    rw [h0]
    rfl
  · rw [if_neg hu]
    have h0 : (d.users.length == 0) = true := by
      simp only [beq_iff_eq]
      omega
    rw [h0]
    cases hW : env.diskWaitOk d.name <;> simp [hlive, hok, hW]

/-- In live mode with all disk delete calls succeeding, the delete/wait
events of the disk loop form the strictly alternating sequence: each
disk's wait precedes the next disk's delete call. -/
theorem deleteDisks_flatten_seq (cfg : Config) (env : Env)
    (hlive : cfg.dryRun = false) :
    ∀ ds : List Disk, (∀ d ∈ ds, env.diskDeleteOk d.name = true) →
      ((ds.map (diskItemTrace cfg env)).flatten).filter
          (Event.isDeleteOrWaitOf Kind.disk)
        = (diskCandidates ds).flatMap
            (fun d => [Event.deleteCall .disk d.name, Event.waitOp .disk d.name]) := by
  intro ds
  induction ds with
  | nil => intro _; rfl
  | cons d ds ih =>
    intro hall
    simp only [List.map_cons, List.flatten_cons, List.filter_append]
    rw [ih (fun d' hd' => hall d' (List.mem_cons_of_mem _ hd')),
        diskItemTrace_filter_seq cfg env d hlive (hall d (List.mem_cons_self _ _))]
    simp only [diskCandidates, List.filter_cons]
    by_cases hc : (d.users.length == 0) = true
    · rw [if_pos hc, if_pos hc]
      simp
    · rw [if_neg hc, if_neg hc]
      simp

/-- C9: in live mode the disk cleaner is strictly sequential: when all
disk deletes succeed, its delete/wait events alternate, each disk's wait
completing before the next disk's delete call; while the instance and
service-account cleaners admit schedules in which a second item's delete
call is issued before the first item's wait or completion. -/
theorem claim9_disks_sequential_others_concurrent (cfg : Config) (env : Env)
    (disks : List Disk) (hlive : cfg.dryRun = false)
    (hok : ∀ d ∈ disks, env.diskDeleteOk d.name = true) :
    (deleteDisks cfg env disks).filter (Event.isDeleteOrWaitOf Kind.disk)
      = (diskCandidates disks).flatMap
          (fun d => [Event.deleteCall .disk d.name, Event.waitOp .disk d.name]) ∧
    (∃ t, PossibleVMTrace cfgLive env0 [i1, i2] t ∧
      t.filter (Event.isDeleteOrWaitOf Kind.inst)
        = [Event.deleteCall .inst i1.name, Event.deleteCall .inst i2.name,
           Event.waitOp .inst i1.name, Event.waitOp .inst i2.name]) ∧
    (∃ t, PossibleSATrace cfgLive env0 [sa1, sa2] t ∧
      t = [Event.logFound .sa sa1.email, Event.logFound .sa sa2.email,
           Event.deleteCall .sa sa1.saName, Event.deleteCall .sa sa2.saName,
           Event.logDeleted .sa sa1.email, Event.logDeleted .sa sa2.email]) := by
  refine ⟨?_, ?_, ?_⟩
  · unfold deleteDisks
    rw [List.filter_append]
    have htail :
        (if (diskCandidates disks).length = 0 then [Event.logNoneFound Kind.disk]
         else if cfg.dryRun = true then
           [Event.wouldDelete Kind.disk (diskCandidates disks).length]
         else []).filter (Event.isDeleteOrWaitOf Kind.disk) = [] := by
      split
      · rfl
      · rw [if_neg (by simp [hlive])]
        rfl
    rw [htail, List.append_nil]
    exact deleteDisks_flatten_seq cfg env hlive disks hok
  · refine ⟨[Event.logFound .inst i1.name, Event.logFound .inst i2.name,
      Event.deleteCall .inst i1.name, Event.deleteCall .inst i2.name,
      Event.waitOp .inst i1.name, Event.logDeleted .inst i1.name,
      Event.waitOp .inst i2.name, Event.logDeleted .inst i2.name],
      ⟨[0, 1, 0, 0, 1, 1], _, rfl, rfl⟩, ?_⟩
    rfl
  · refine ⟨[Event.logFound .sa sa1.email, Event.logFound .sa sa2.email,
      Event.deleteCall .sa sa1.saName, Event.deleteCall .sa sa2.saName,
      Event.logDeleted .sa sa1.email, Event.logDeleted .sa sa2.email],
      ⟨[0, 1, 0, 1], _, rfl, rfl⟩, rfl⟩

/-- Witness for C9 at a concrete input: two unattached disks, live mode,
all-success environment. -/
theorem claim9_witness :
    cfgLive.dryRun = false ∧
    (∀ d ∈ [dFree, dFree2], env0.diskDeleteOk d.name = true) ∧
    ((deleteDisks cfgLive env0 [dFree, dFree2]).filter
        (Event.isDeleteOrWaitOf Kind.disk)
      = (diskCandidates [dFree, dFree2]).flatMap
          (fun d => [Event.deleteCall .disk d.name, Event.waitOp .disk d.name]) ∧
    (∃ t, PossibleVMTrace cfgLive env0 [i1, i2] t ∧
      t.filter (Event.isDeleteOrWaitOf Kind.inst)
        = [Event.deleteCall .inst i1.name, Event.deleteCall .inst i2.name,
           Event.waitOp .inst i1.name, Event.waitOp .inst i2.name]) ∧
    (∃ t, PossibleSATrace cfgLive env0 [sa1, sa2] t ∧
      t = [Event.logFound .sa sa1.email, Event.logFound .sa sa2.email,
           Event.deleteCall .sa sa1.saName, Event.deleteCall .sa sa2.saName,
           Event.logDeleted .sa sa1.email, Event.logDeleted .sa sa2.email])) :=
  ⟨rfl, by simp [env0],
   claim9_disks_sequential_others_concurrent cfgLive env0 [dFree, dFree2]
     rfl (by simp [env0])⟩
